import Mathlib

/-!
Verification of the e2e-runner command-execution core.

Shallow embedding of:
* `src/src/executor.ts`   — `OperationExecutor.execute` / `executeCommand`
* `src/unnamed/part_002`  — the command registry (`getCommandExecutor`)
* `src/src/types.ts`      — runtime data model
* `src/unnamed/part_003`  — environment-variable interpolation
* `src/unnamed/part_004`  — the generic (open/passthrough) Zod schema
* `src/unnamed/part_000`  — `ConfigLoader.parseYaml` / `loadFromFile`

Conventions of the embedding:
* JavaScript exceptions are modelled with `Except` / explicit outcome types.
* Opaque runtime handles (windows, request results, remappers) are modelled as
  small structures carrying exactly the fields the engine inspects.
* Real-time values (`Date.now()` readings) are threaded as explicit `Nat`
  parameters; wall-clock durations carry no verified content.
* External collaborators (the YAML parser, the file system, the concrete
  command executors registered by callers) are inputs of the model.
-/

namespace E2E

/-! ## JSON/YAML-like document values

The configuration pipeline (interpolator, schema, loader) operates on parsed
YAML documents.  Numbers are modelled as integers (the schema only ever checks
integer constraints on the claims' paths). -/

inductive JValue where
  | str (s : String)
  | num (n : Int)
  | bool (b : Bool)
  | null
  | arr (xs : List JValue)
  | obj (fields : List (String × JValue))

/-! ## Environment-variable interpolation (`src/unnamed/part_003`)

`interpolateEnv` implements the global regex replace of
`ENV_PATTERN = /\$\{getenv:([A-Z_][A-Z0-9_]*)\}/g` over a string:
the input is decomposed into literal characters and placeholder matches
(scanning left to right, non-overlapping, exactly as `String.replace` with a
global regex does), and every matched variable is substituted with its
environment value, throwing on the first variable absent from the
environment. -/

def isUpperAZ (c : Char) : Bool := 'A' ≤ c && c ≤ 'Z'

def isDigit09 (c : Char) : Bool := '0' ≤ c && c ≤ '9'

/-- First character of a placeholder name: `[A-Z_]`. -/
def isNameStart (c : Char) : Bool := isUpperAZ c || c = '_'

/-- Continuation character of a placeholder name: `[A-Z0-9_]`. -/
def isNameCont (c : Char) : Bool := isUpperAZ c || isDigit09 c || c = '_'

/-- Parse `[A-Z0-9_]*\}` returning the name-continuation characters and the
characters after the closing brace. -/
def takeName : List Char → Option (List Char × List Char)
  | [] => none
  | c :: cs =>
    if c = '}' then some ([], cs)
    else if isNameCont c then
      match takeName cs with
      | some (nm, r) => some (c :: nm, r)
      | none => none
    else none

/-- One token of the regex decomposition of a string: a literal character or a
matched `$\x7bgetenv:NAME\x7d` placeholder. -/
inductive Tok where
  | lit (c : Char)
  | var (name : String)
deriving DecidableEq, Repr

/-- Decompose a character list into literals and placeholder matches, exactly
as the global regex scan of `ENV_PATTERN` does: at each position, try to match
the literal `$\x7bgetenv:` followed by `[A-Z_][A-Z0-9_]*\x7d`; on success emit a
placeholder token and continue after the match, otherwise emit one literal
character and continue at the next position.  The `fuel` argument makes the
recursion structural (hence kernel-computable); every step consumes at least
one character, so `fuel = l.length` in `decompose` never runs out. -/
def decomposeF : Nat → List Char → List Tok
  | 0, _ => []
  | fuel + 1, l =>
    match l with
    | '$' :: '{' :: 'g' :: 'e' :: 't' :: 'e' :: 'n' :: 'v' :: ':' :: c0 :: rest =>
      if isNameStart c0 then
        match takeName rest with
        | some (nm, r) =>
          Tok.var (String.mk (c0 :: nm)) :: decomposeF fuel r
        | none =>
          Tok.lit '$' ::
            decomposeF fuel ('{' :: 'g' :: 'e' :: 't' :: 'e' :: 'n' :: 'v' :: ':' :: c0 :: rest)
      else
        Tok.lit '$' ::
          decomposeF fuel ('{' :: 'g' :: 'e' :: 't' :: 'e' :: 'n' :: 'v' :: ':' :: c0 :: rest)
    | c :: cs => Tok.lit c :: decomposeF fuel cs
    | [] => []

/-- The regex decomposition of a string (see `decomposeF`). -/
def decompose (l : List Char) : List Tok := decomposeF l.length l

/-- The environment-variable names referenced by a string, in match order. -/
def refsOf (l : List Char) : List String :=
  (decompose l).filterMap (fun t => match t with | .var n => some n | .lit _ => none)

/-- Substitute the tokens against an environment, throwing (like the replace
callback in `interpolateEnv`) on the first referenced variable that is absent
from the environment. -/
def scanToks (env : String → Option String) : List Tok → Except String (List Char)
  | [] => .ok []
  | .lit c :: ts =>
    match scanToks env ts with
    | .ok tail => .ok (c :: tail)
    | .error e => .error e
  | .var n :: ts =>
    match env n with
    | none => .error ("Environment variable not found: " ++ n)
    | some v =>
      match scanToks env ts with
      | .ok tail => .ok (v.toList ++ tail)
      | .error e => .error e

/-- Total substitution of the tokens (the successful-replacement semantics of
the regex replace, used to state what a successful interpolation returns). -/
def substToks (g : String → String) : List Tok → List Char
  | [] => []
  | .lit c :: ts => c :: substToks g ts
  | .var n :: ts => (g n).toList ++ substToks g ts

/-- `interpolateEnv` from `src/unnamed/part_003`: replace every
`$\x7bgetenv:NAME\x7d` occurrence with the environment value of `NAME`, throwing
if a referenced variable is not found. -/
def interpolateEnv (env : String → Option String) (s : String) : Except String String :=
  match scanToks env (decompose s.toList) with
  | .ok cs => .ok (String.mk cs)
  | .error e => .error e

mutual
/-- `interpolateCommand` from `src/unnamed/part_003`: recursively interpolate
strings; arrays elementwise; objects valuewise (keys untouched); all other
values pass through unchanged. -/
def interpolateCommand (env : String → Option String) : JValue → Except String JValue
  | .str s =>
    match interpolateEnv env s with
    | .ok t => .ok (.str t)
    | .error e => .error e
  | .arr xs =>
    match interpList env xs with
    | .ok ys => .ok (.arr ys)
    | .error e => .error e
  | .obj fs =>
    match interpFields env fs with
    | .ok gs => .ok (.obj gs)
    | .error e => .error e
  | .num n => .ok (.num n)
  | .bool b => .ok (.bool b)
  | .null => .ok .null

def interpList (env : String → Option String) : List JValue → Except String (List JValue)
  | [] => .ok []
  | x :: xs =>
    match interpolateCommand env x with
    | .error e => .error e
    | .ok y =>
      match interpList env xs with
      | .error e => .error e
      | .ok ys => .ok (y :: ys)

def interpFields (env : String → Option String) :
    List (String × JValue) → Except String (List (String × JValue))
  | [] => .ok []
  | (k, x) :: fs =>
    match interpolateCommand env x with
    | .error e => .error e
    | .ok y =>
      match interpFields env fs with
      | .error e => .error e
      | .ok gs => .ok ((k, y) :: gs)
end

/-- `interpolateConfig` from `src/unnamed/part_003`. -/
def interpolateConfig (env : String → Option String) (config : JValue) : Except String JValue :=
  interpolateCommand env config

mutual
/-- All environment-variable references occurring in a document, in traversal
order (strings scanned by the regex; arrays in order; object values in key
order). -/
def jrefs : JValue → List String
  | .str s => refsOf s.toList
  | .arr xs => jrefsList xs
  | .obj fs => jrefsFields fs
  | .num _ => []
  | .bool _ => []
  | .null => []

def jrefsList : List JValue → List String
  | [] => []
  | x :: xs => jrefs x ++ jrefsList xs

def jrefsFields : List (String × JValue) → List String
  | [] => []
  | (_, x) :: fs => jrefs x ++ jrefsFields fs
end

mutual
/-- Total substitution over a document (what interpolation returns when every
referenced variable is present): every placeholder occurrence in every string
is replaced, non-string non-container values pass through unchanged. -/
def jsubst (g : String → String) : JValue → JValue
  | .str s => .str (String.mk (substToks g (decompose s.toList)))
  | .arr xs => .arr (jsubstList g xs)
  | .obj fs => .obj (jsubstFields g fs)
  | .num n => .num n
  | .bool b => .bool b
  | .null => .null

def jsubstList (g : String → String) : List JValue → List JValue
  | [] => []
  | x :: xs => jsubst g x :: jsubstList g xs

def jsubstFields (g : String → String) : List (String × JValue) → List (String × JValue)
  | [] => []
  | (k, x) :: fs => (k, jsubst g x) :: jsubstFields g fs
end

/-! ## Generic operation-config schema (`src/unnamed/part_004`)

The Zod schemas are modelled as partial functions `JValue → Option JValue`
returning the parsed value.  `z.object` rejects non-objects; declared fields
are checked; `.passthrough()` keeps the whole input object (unknown fields
verbatim); the top-level schema (default "strip" mode) rebuilds the object
from its declared fields only, in shape order.  URL validity of
`z.string().url()` is external library behaviour and is threaded as a
predicate parameter `urlOk`. -/

/-- Field access on a parsed object (JS property lookup). -/
def lookupField (fs : List (String × JValue)) (k : String) : Option JValue :=
  (fs.find? (fun p => p.1 == k)).map (fun p => p.2)

/-- An optional declared field: absent is fine, present must satisfy `check`. -/
def zodOptField (check : JValue → Bool) (fs : List (String × JValue)) (k : String) : Bool :=
  match lookupField fs k with
  | none => true
  | some v => check v

def isBoolV : JValue → Bool
  | .bool _ => true
  | _ => false

/-- `z.number().int().positive()` (numbers are modelled as integers). -/
def isPosIntV : JValue → Bool
  | .num n => 0 < n
  | _ => false

/-- `CommandSchema`: requires a non-empty `command` string and an optional
`description` string, and passes any additional fields through verbatim. -/
def commandParse (v : JValue) : Option JValue :=
  match v with
  | .obj fs =>
    match lookupField fs "command" with
    | some (.str s) =>
      if 1 ≤ s.length then
        match lookupField fs "description" with
        | none => some (.obj fs)
        | some (.str _) => some (.obj fs)
        | some _ => none
      else none
    | _ => none
  | _ => none

/-- `SettingsSchema`: optional `timeout` (positive integer),
`waitForCompletion` / `continueOnError` (booleans), `baseUrl` (valid URL),
with passthrough of any further fields. -/
def settingsParse (urlOk : String → Bool) (v : JValue) : Option JValue :=
  match v with
  | .obj fs =>
    if zodOptField isPosIntV fs "timeout" &&
       zodOptField isBoolV fs "waitForCompletion" &&
       zodOptField isBoolV fs "continueOnError" &&
       zodOptField (fun u => match u with | .str s => urlOk s | _ => false) fs "baseUrl"
    then some (.obj fs) else none
  | _ => none

/-- `mapOpt f l = some l'` iff `f` succeeds on every element (in order). -/
def mapOpt (f : JValue → Option JValue) : List JValue → Option (List JValue)
  | [] => some []
  | x :: xs =>
    match f x with
    | none => none
    | some y =>
      match mapOpt f xs with
      | none => none
      | some ys => some (y :: ys)

/-- An optional declared field of the top-level schema, returning the
(zero- or one-element) field list contributed to the rebuilt output object. -/
def optFieldParse (p : JValue → Option JValue) (fs : List (String × JValue)) (k : String) :
    Option (List (String × JValue)) :=
  match lookupField fs k with
  | none => some []
  | some v =>
    match p v with
    | some w => some [(k, w)]
    | none => none

/-- Optional-string field parser (for `name` / `description`). -/
def strParse : JValue → Option JValue
  | .str s => some (.str s)
  | _ => none

/-- `OperationConfigSchema`: `version` non-empty string, optional `name` /
`description` strings, optional `settings`, `commands` a non-empty array of
`CommandSchema` values.  Default (strip) mode: the output object is rebuilt
from the declared fields in shape order, dropping unknown top-level fields. -/
def operationConfigParse (urlOk : String → Bool) (v : JValue) : Option JValue :=
  match v with
  | .obj fs =>
    match lookupField fs "version" with
    | some (.str ver) =>
      if 1 ≤ ver.length then
        match optFieldParse strParse fs "name",
              optFieldParse strParse fs "description",
              optFieldParse (settingsParse urlOk) fs "settings",
              lookupField fs "commands" with
        | some nameF, some descF, some setF, some (.arr cs) =>
          if 1 ≤ cs.length then
            match mapOpt commandParse cs with
            | some ds =>
              some (.obj ([("version", JValue.str ver)] ++ nameF ++ descF ++ setF ++
                          [("commands", JValue.arr ds)]))
            | none => none
          else none
        | _, _, _, _ => none
      else none
    | _ => none
  | _ => none

/-! ## Config loader (`src/unnamed/part_000`)

File reading and the YAML library are external: a loader input is modelled as
the outcome of `parseYaml(yamlString)` (either a parser failure with the
library's message and whether the thrown value is a `SyntaxError`, or the
parsed document).  The model reproduces exactly the error construction and
re-wrapping of `ConfigLoader.parseYaml` / `loadFromFile`.  The joined Zod
issue text of a validation failure is external detail and threaded as
`validationDetail`. -/

/-- JS `String.prototype.includes`. -/
def jsIncludes (s pat : String) : Bool := decide (List.IsInfix pat.toList s.toList)

/-- The outer `catch` of `ConfigLoader.parseYaml`: `SyntaxError`s are wrapped
as YAML parsing errors, errors mentioning `Configuration` are re-thrown
unchanged, anything else is wrapped as a parse failure. -/
def outerWrap (syntaxErr : Bool) (msg : String) : String :=
  if syntaxErr then "YAML parsing error: " ++ msg
  else if jsIncludes msg "Configuration" then msg
  else "Failed to parse configuration: " ++ msg

/-- Outcome of the external YAML library on the raw text. -/
inductive YamlOutcome where
  | fail (syntaxErr : Bool) (msg : String)
  | ok (v : JValue)

/-- JS `!parsed || typeof parsed !== 'object'` (negated): arrays and objects
pass, `null` is falsy, everything else is not an object. -/
def isObjectLike : JValue → Bool
  | .obj _ => true
  | .arr _ => true
  | _ => false

/-- `ConfigLoader.parseYaml`: parse, reject non-object documents, interpolate
environment variables before validation, validate; every failure is rethrown
through the outer catch. -/
def parseYamlModel (urlOk : String → Bool) (env : String → Option String)
    (validationDetail : String) (y : YamlOutcome) : Except String JValue :=
  match y with
  | .fail syntaxErr msg => .error (outerWrap syntaxErr msg)
  | .ok parsed =>
    if isObjectLike parsed then
      match interpolateConfig env parsed with
      | .error m =>
        .error (outerWrap false ("Failed to interpolate environment variables: " ++ m))
      | .ok interpolated =>
        match operationConfigParse urlOk interpolated with
        | none => .error (outerWrap false ("Configuration validation failed:\n" ++ validationDetail))
        | some cfg => .ok cfg
    else .error (outerWrap false "Configuration must be a valid YAML object")

/-- `ConfigLoader.loadFromFile`: missing files fail with a not-found error;
any other failure of the raw-text pipeline is re-wrapped with the resolved
path unless it is itself a not-found error. -/
def loadFromFileModel (urlOk : String → Bool) (env : String → Option String)
    (validationDetail : String) (fileExists : Bool) (resolvedPath : String)
    (y : YamlOutcome) : Except String JValue :=
  if fileExists then
    match parseYamlModel urlOk env validationDetail y with
    | .ok c => .ok c
    | .error e =>
      if jsIncludes e "Configuration file not found" then .error e
      else .error ("Failed to load configuration from " ++ resolvedPath ++ ": Error: " ++ e)
  else .error ("Configuration file not found: " ++ resolvedPath)

/-! ## Runtime data model (`src/src/types.ts`)

Opaque runtime handles are modelled with the fields the engine reads:
a window carries an identity, its `location.href`, and an optional
`requestResult`; a request result carries an opaque payload identity and an
optional remapper handle.  Error-context timestamps (`Date.now()` readings
inside synthesized errors) are real-time values and are not modelled. -/

structure RequestResult where
  remapper : Option Nat
  payload : Nat
deriving DecidableEq, Repr

structure Window where
  id : Nat
  url : String
  requestResult : Option RequestResult
deriving DecidableEq, Repr

structure CommandError where
  type : String
  message : String
  url : String
deriving DecidableEq, Repr

/-- Command-result data payload; the engine only inspects `newWindow`. -/
structure CmdData where
  newWindow : Option Window
deriving DecidableEq, Repr

structure CommandResult where
  command : String
  commandIndex : Nat
  success : Bool
  duration : Nat
  error : Option CommandError
  data : Option CmdData
deriving DecidableEq, Repr

/-- A command of a validated configuration: its dispatch name plus its other
(command-specific) fields, which the engine never inspects. -/
structure Command where
  command : String
  payload : List (String × String)
deriving DecidableEq, Repr

structure ExecutionContext where
  backend : String
  window : Option Window
  baseUrl : String
  timeout : Nat
  continueOnError : Bool
  results : List CommandResult
  startTime : Option Nat
  requestResult : Option RequestResult
deriving DecidableEq, Repr

structure ExecutionResult where
  success : Bool
  configName : Option String
  totalCommands : Nat
  successCount : Nat
  errorCount : Nat
  duration : Nat
  results : List CommandResult
deriving DecidableEq, Repr

/-- The fields of a validated `OperationConfig` the engine reads. -/
structure OperationConfig where
  name : Option String
  commands : List Command
deriving DecidableEq, Repr

/-! ## Command registry (`src/unnamed/part_002`) and executor
(`src/src/executor.ts`)

A registered executor receives the current window, the command, the context
and the command index, and either returns a `CommandResult` or throws; the
registry is the map from command name to executor.  Awaiting is synchronous
in the model (execution is strictly sequential in the source). -/

inductive ExecOutcome where
  | ret (r : CommandResult)
  | threw (msg : String)

def CommandExecutorFn :=
  Option Window → Command → ExecutionContext → Nat → ExecOutcome

/-- `getCommandExecutor`: lookup in the name → executor map. -/
def Registry := String → Option CommandExecutorFn

/-- `window?.location?.href || context.baseUrl || ''`. -/
def windowUrlOr (w : Option Window) (base : String) : String :=
  match w with
  | some win => if win.url = "" then base else win.url
  | none => base

def newWindowOf (r : CommandResult) : Option Window :=
  match r.data with
  | some d => d.newWindow
  | none => none

/-- `OperationExecutor.executeCommand`: look the executor up; if absent,
synthesize a failed execution-error result naming the unknown command without
invoking anything; otherwise invoke it, converting a thrown failure into a
failed execution-error result carrying the failure's message.  The returned
`Bool` is ghost instrumentation recording whether an executor was invoked. -/
def executeCommand (reg : Registry) (window : Option Window) (cmd : Command)
    (context : ExecutionContext) (commandIndex : Nat) : CommandResult × Bool :=
  match reg cmd.command with
  | none =>
    ({ command := cmd.command
       commandIndex := commandIndex
       success := false
       duration := 0
       error := some { type := "execution_error"
                       message := "Unknown command type: " ++ cmd.command
                       url := windowUrlOr window context.baseUrl }
       data := none }, false)
  | some f =>
    match f window cmd context commandIndex with
    | .ret r => (r, true)
    | .threw m =>
      ({ command := if cmd.command = "" then "unknown" else cmd.command
         commandIndex := commandIndex
         success := false
         duration := 0
         error := some { type := "execution_error"
                         message := if m = "" then "Unknown error" else m
                         url := windowUrlOr window context.baseUrl }
         data := none }, true)

/-- Lines 43–68 of `executor.ts`: after a successful `navigate`/`click`/
`submit` on the happy-dom backend whose result data carries a `newWindow`,
release the old window (best-effort, abort errors swallowed), install the new
window on the context, and carry the session's `requestResult` forward,
preserving a previously-attached remapper when the new window's
`requestResult` lacks one.  Returns (updated context, current window, windows
released here). -/
def applyWindowReplacement (cmd : Command) (result : CommandResult)
    (ctx : ExecutionContext) (win : Option Window) :
    ExecutionContext × Option Window × List Window :=
  if ctx.backend == "happy-dom" && result.success &&
     (cmd.command == "navigate" || cmd.command == "click" || cmd.command == "submit") then
    match newWindowOf result with
    | some nw =>
      let released := match win with | some w => [w] | none => []
      let previousRemapper := ctx.requestResult.bind (fun rr => rr.remapper)
      let ctx2 := { ctx with window := some nw }
      let ctx3 :=
        match nw.requestResult with
        | some rr =>
          if previousRemapper.isSome && rr.remapper.isNone then
            { ctx2 with requestResult := some { rr with remapper := previousRemapper } }
          else
            { ctx2 with requestResult := some rr }
        | none => ctx2
      (ctx3, some nw, released)
    | none => (ctx, win, [])
  else (ctx, win, [])

/-- Ghost record of one loop iteration of `execute` (instrumentation for the
theorems; the engine's own state is inside the record's context fields). -/
structure StepRecord where
  index : Nat
  cmd : Command
  ctxBefore : ExecutionContext
  winBefore : Option Window
  result : CommandResult
  invoked : Bool
  releasedHere : List Window
  ctxAfter : ExecutionContext
  winAfter : Option Window
deriving DecidableEq, Repr

structure RunOut where
  ctx : ExecutionContext
  window : Option Window
  trace : List StepRecord
deriving DecidableEq, Repr

/-- The command loop of `OperationExecutor.execute` (lines 32–79): execute
each command in order, push its result onto `context.results`, apply the
window-replacement transition, and stop immediately when a result is
unsuccessful and `continueOnError` is false. -/
def runCmds (reg : Registry) : List Command → Nat → ExecutionContext → Option Window → RunOut
  | [], _, ctx, win => ⟨ctx, win, []⟩
  | cmd :: rest, i, ctx, win =>
    let ri := executeCommand reg win cmd ctx i
    let result := ri.1
    let ctx1 : ExecutionContext := { ctx with results := ctx.results ++ [result] }
    let s := applyWindowReplacement cmd result ctx1 win
    let sr : StepRecord :=
      { index := i, cmd := cmd, ctxBefore := ctx, winBefore := win, result := result,
        invoked := ri.2, releasedHere := s.2.2, ctxAfter := s.1, winAfter := s.2.1 }
    if !result.success && !ctx.continueOnError then
      ⟨s.1, s.2.1, [sr]⟩
    else
      let restOut := runCmds reg rest (i + 1) s.1 s.2.1
      ⟨restOut.ctx, restOut.window, sr :: restOut.trace⟩

/-- `OperationExecutor.execute`: run the loop over `config.commands` starting
from `context.window`, then aggregate.  `tNow` and `tEnd` are the `Date.now()`
readings at entry and at aggregation (real time is external). -/
def execute (reg : Registry) (config : OperationConfig) (context : ExecutionContext)
    (tNow tEnd : Nat) : ExecutionResult × RunOut :=
  let startTime := match context.startTime with
    | some t => if t = 0 then tNow else t
    | none => tNow
  let out := runCmds reg config.commands 0 context context.window
  let duration := tEnd - startTime
  let successCount := out.ctx.results.countP (fun r => r.success)
  let errorCount := out.ctx.results.countP (fun r => !r.success)
  ({ success := errorCount == 0
     configName := config.name
     totalCommands := config.commands.length
     successCount := successCount
     errorCount := errorCount
     duration := duration
     results := out.ctx.results }, out)

/-! Claim-level predicates about single loop iterations. -/

/-- The guard of the window-replacement transition, read off a step record:
happy-dom backend, a successful state-transitioning command, and a result
payload carrying a replacement window. -/
def transitionCond (sr : StepRecord) : Bool :=
  sr.ctxBefore.backend == "happy-dom" && sr.result.success &&
  (sr.cmd.command == "navigate" || sr.cmd.command == "click" || sr.cmd.command == "submit") &&
  (newWindowOf sr.result).isSome

/-- What one loop iteration does to the window/session state: on the
transition the old window is released and the new one installed, with the
previous remapper preserved when the new window's `requestResult` lacks one;
otherwise the window, released set and `requestResult` are untouched. -/
def StepPost (sr : StepRecord) : Prop :=
  if transitionCond sr then
    ∃ nw, newWindowOf sr.result = some nw ∧
      sr.winAfter = some nw ∧
      sr.ctxAfter.window = some nw ∧
      sr.releasedHere = sr.winBefore.toList ∧
      (match nw.requestResult with
       | some rr =>
         sr.ctxAfter.requestResult =
           some (if (sr.ctxBefore.requestResult.bind (fun q => q.remapper)).isSome &&
                    rr.remapper.isNone
                 then { rr with remapper := sr.ctxBefore.requestResult.bind (fun q => q.remapper) }
                 else rr)
       | none => sr.ctxAfter.requestResult = sr.ctxBefore.requestResult)
  else
    sr.winAfter = sr.winBefore ∧
    sr.ctxAfter.window = sr.ctxBefore.window ∧
    sr.releasedHere = [] ∧
    sr.ctxAfter.requestResult = sr.ctxBefore.requestResult

/-- The executor-function contract of the registry (`src/unnamed/part_002`,
`src/src/types.ts`): a returned `CommandResult` reports the index it was
invoked with. -/
def IndexFaithful (reg : Registry) : Prop :=
  ∀ name f, reg name = some f →
    ∀ w c ctx i r, f w c ctx i = .ret r → r.commandIndex = i

/-! ## Lemmas about the execution loop -/

theorem applyWR_fields (cmd : Command) (r : CommandResult) (c : ExecutionContext)
    (w : Option Window) :
    (applyWindowReplacement cmd r c w).1.results = c.results ∧
    (applyWindowReplacement cmd r c w).1.continueOnError = c.continueOnError ∧
    (applyWindowReplacement cmd r c w).1.backend = c.backend ∧
    (applyWindowReplacement cmd r c w).1.baseUrl = c.baseUrl := by
  unfold applyWindowReplacement
  (repeat' split) <;> simp <;> (repeat' split) <;> exact ⟨rfl, rfl, rfl, rfl⟩

theorem applyWR_of_cond (cmd : Command) (r : CommandResult) (c : ExecutionContext)
    (w : Option Window) (nw : Window)
    (hcond : (c.backend == "happy-dom" && r.success &&
      (cmd.command == "navigate" || cmd.command == "click" || cmd.command == "submit")) = true)
    (hnw : newWindowOf r = some nw) :
    applyWindowReplacement cmd r c w =
      ((match nw.requestResult with
        | some rr =>
          if (c.requestResult.bind (fun q => q.remapper)).isSome && rr.remapper.isNone then
            { c with window := some nw,
                     requestResult := some { rr with remapper := c.requestResult.bind (fun q => q.remapper) } }
          else { c with window := some nw, requestResult := some rr }
        | none => { c with window := some nw }), some nw, w.toList) := by
  unfold applyWindowReplacement
  rw [if_pos hcond, hnw]
  cases w <;> rfl

theorem applyWR_not_cond (cmd : Command) (r : CommandResult) (c : ExecutionContext)
    (w : Option Window)
    (hcond : (c.backend == "happy-dom" && r.success &&
      (cmd.command == "navigate" || cmd.command == "click" || cmd.command == "submit")) = false) :
    applyWindowReplacement cmd r c w = (c, w, []) := by
  unfold applyWindowReplacement
  rw [if_neg]
  simp [hcond]

theorem applyWR_no_nw (cmd : Command) (r : CommandResult) (c : ExecutionContext)
    (w : Option Window)
    (hnw : newWindowOf r = none) :
    applyWindowReplacement cmd r c w = (c, w, []) := by
  unfold applyWindowReplacement
  split
  · rw [hnw]
  · rfl

theorem stepPost_of (sr : StepRecord)
    (h1 : (applyWindowReplacement sr.cmd sr.result
            { sr.ctxBefore with results := sr.ctxBefore.results ++ [sr.result] } sr.winBefore) =
          (sr.ctxAfter, sr.winAfter, sr.releasedHere)) : StepPost sr := by
  unfold StepPost
  split
  case isTrue h =>
    unfold transitionCond at h
    have hb : (sr.ctxBefore.backend == "happy-dom" && sr.result.success &&
        (sr.cmd.command == "navigate" || sr.cmd.command == "click" ||
          sr.cmd.command == "submit")) = true := by
      cases hx : sr.ctxBefore.backend == "happy-dom" <;> cases hy : sr.result.success <;>
        cases hz : (sr.cmd.command == "navigate" || sr.cmd.command == "click" ||
          sr.cmd.command == "submit") <;>
        simp [hx, hy, hz] at h ⊢
    have hsome : (newWindowOf sr.result).isSome = true := by
      cases hx : (newWindowOf sr.result).isSome <;> simp [hx] at h ⊢
    obtain ⟨nw, hnw⟩ := Option.isSome_iff_exists.mp hsome
    rw [applyWR_of_cond _ _ _ _ nw (by simpa using hb) hnw] at h1
    have hc := congrArg Prod.fst h1
    have hw := congrArg (fun p => p.2.1) h1
    have hrel := congrArg (fun p => p.2.2) h1
    simp only at hc hw hrel
    refine ⟨nw, hnw, hw.symm, ?_, hrel.symm, ?_⟩
    · rw [← hc]
      cases hrr : nw.requestResult with
      | none => rfl
      | some rr =>
        dsimp only
        by_cases h2 : ((sr.ctxBefore.requestResult.bind fun q => q.remapper).isSome &&
            rr.remapper.isNone) = true
        · rw [if_pos h2]
        · rw [if_neg h2]
    · rw [← hc]
      cases hrr : nw.requestResult with
      | none => rfl
      | some rr =>
        dsimp only
        by_cases h2 : ((sr.ctxBefore.requestResult.bind fun q => q.remapper).isSome &&
            rr.remapper.isNone) = true
        · rw [if_pos h2, if_pos h2]
        · rw [if_neg h2, if_neg h2]
  case isFalse h =>
    unfold transitionCond at h
    by_cases hb : (sr.ctxBefore.backend == "happy-dom" && sr.result.success &&
        (sr.cmd.command == "navigate" || sr.cmd.command == "click" ||
          sr.cmd.command == "submit")) = true
    · have hnw : newWindowOf sr.result = none := by
        cases hx : newWindowOf sr.result with
        | none => rfl
        | some nw => exact absurd (by simp [hb, hx]) h
      rw [applyWR_no_nw _ _ _ _ hnw] at h1
      have hc := congrArg Prod.fst h1
      have hw := congrArg (fun p => p.2.1) h1
      have hrel := congrArg (fun p => p.2.2) h1
      simp only at hc hw hrel
      refine ⟨hw.symm, ?_, hrel.symm, ?_⟩ <;> rw [← hc]
    · rw [applyWR_not_cond _ _ _ _ (by simpa using hb)] at h1
      have hc := congrArg Prod.fst h1
      have hw := congrArg (fun p => p.2.1) h1
      have hrel := congrArg (fun p => p.2.2) h1
      simp only at hc hw hrel
      refine ⟨hw.symm, ?_, hrel.symm, ?_⟩ <;> rw [← hc]

theorem runCmds_results (reg : Registry) (cmds : List Command) :
    ∀ (i : Nat) (ctx : ExecutionContext) (win : Option Window),
    (runCmds reg cmds i ctx win).ctx.results =
      ctx.results ++ (runCmds reg cmds i ctx win).trace.map (fun sr => sr.result) := by
  induction cmds with
  | nil => intro i ctx win; simp [runCmds]
  | cons cmd rest ih =>
    intro i ctx win
    simp only [runCmds]
    by_cases h : (!(executeCommand reg win cmd ctx i).1.success && !ctx.continueOnError) = true
    · rw [if_pos h]
      simp [(applyWR_fields _ _ _ _).1]
    · rw [if_neg h]
      simp only [List.map_cons]
      rw [ih]
      simp [(applyWR_fields _ _ _ _).1]

theorem runCmds_trace_spec (reg : Registry) (cmds : List Command) :
    ∀ (i : Nat) (ctx : ExecutionContext) (win : Option Window) (j : Nat) (sr : StepRecord),
    (runCmds reg cmds i ctx win).trace.get? j = some sr →
    ∃ cmd, cmds.get? j = some cmd ∧
      sr.index = i + j ∧ sr.cmd = cmd ∧
      (sr.result, sr.invoked) = executeCommand reg sr.winBefore sr.cmd sr.ctxBefore sr.index ∧
      StepPost sr ∧
      sr.ctxBefore.continueOnError = ctx.continueOnError ∧
      sr.ctxBefore.backend = ctx.backend := by
  induction cmds with
  | nil => intro i ctx win j sr hj; simp [runCmds] at hj
  | cons cmd rest ih =>
    intro i ctx win j sr hj
    simp only [runCmds] at hj
    by_cases h : (!(executeCommand reg win cmd ctx i).1.success && !ctx.continueOnError) = true
    · rw [if_pos h] at hj
      cases j with
      | zero =>
        simp only [List.get?] at hj
        obtain rfl : _ = sr := Option.some_inj.mp hj
        refine ⟨cmd, by simp, by simp, rfl, by simp, ?_, rfl, rfl⟩
        exact stepPost_of _ rfl
      | succ j => simp [List.get?] at hj
    · rw [if_neg h] at hj
      cases j with
      | zero =>
        simp only [List.get?] at hj
        obtain rfl : _ = sr := Option.some_inj.mp hj
        refine ⟨cmd, by simp, by simp, rfl, by simp, ?_, rfl, rfl⟩
        exact stepPost_of _ rfl
      | succ j =>
        simp only [List.get?] at hj
        obtain ⟨cmd2, hc2, hidx, hcmd, hpair, hpost, hcoe, hback⟩ :=
          ih (i + 1) _ _ j sr hj
        refine ⟨cmd2, by simpa using hc2, by omega, hcmd, hpair, hpost, ?_, ?_⟩
        · rw [hcoe, (applyWR_fields _ _ _ _).2.1]
        · rw [hback, (applyWR_fields _ _ _ _).2.2.1]

theorem runCmds_len_le (reg : Registry) (cmds : List Command) :
    ∀ (i : Nat) (ctx : ExecutionContext) (win : Option Window),
    (runCmds reg cmds i ctx win).trace.length ≤ cmds.length := by
  induction cmds with
  | nil => intro i ctx win; simp [runCmds]
  | cons cmd rest ih =>
    intro i ctx win
    simp only [runCmds]
    by_cases h : (!(executeCommand reg win cmd ctx i).1.success && !ctx.continueOnError) = true
    · rw [if_pos h]; simp
    · rw [if_neg h]
      simp only [List.length_cons]
      exact Nat.succ_le_succ (ih _ _ _)

theorem runCmds_stop_mid (reg : Registry) (cmds : List Command) :
    ∀ (i : Nat) (ctx : ExecutionContext) (win : Option Window),
    ctx.continueOnError = false →
    ∀ (j : Nat) (sr : StepRecord),
      (runCmds reg cmds i ctx win).trace.get? j = some sr →
      j + 1 < (runCmds reg cmds i ctx win).trace.length →
      sr.result.success = true := by
  induction cmds with
  | nil => intro i ctx win _ j sr hj _; simp [runCmds] at hj
  | cons cmd rest ih =>
    intro i ctx win hcoe j sr hj hlt
    simp only [runCmds] at hj hlt
    by_cases h : (!(executeCommand reg win cmd ctx i).1.success && !ctx.continueOnError) = true
    · rw [if_pos h] at hj hlt
      simp at hlt
    · rw [if_neg h] at hj hlt
      cases j with
      | zero =>
        simp only [List.get?] at hj
        obtain rfl : _ = sr := Option.some_inj.mp hj
        simp [hcoe] at h
        simpa using h
      | succ j =>
        simp only [List.get?] at hj
        simp only [List.length_cons] at hlt
        exact ih (i + 1) _ _ (by rw [(applyWR_fields _ _ _ _).2.1]; exact hcoe) j sr hj
          (by omega)

theorem runCmds_full (reg : Registry) (cmds : List Command) :
    ∀ (i : Nat) (ctx : ExecutionContext) (win : Option Window),
    ctx.continueOnError = true →
    (runCmds reg cmds i ctx win).trace.length = cmds.length := by
  induction cmds with
  | nil => intro i ctx win _; simp [runCmds]
  | cons cmd rest ih =>
    intro i ctx win hcoe
    simp only [runCmds]
    have h : (!(executeCommand reg win cmd ctx i).1.success && !ctx.continueOnError) = false := by
      simp [hcoe]
    rw [if_neg (by simp [h])]
    simp only [List.length_cons]
    rw [ih (i + 1) _ _ (by rw [(applyWR_fields _ _ _ _).2.1]; exact hcoe)]

theorem runCmds_indices (reg : Registry) (cmds : List Command) :
    ∀ (i : Nat) (ctx : ExecutionContext) (win : Option Window),
    (runCmds reg cmds i ctx win).trace.map (fun sr => sr.index) =
      List.range' i (runCmds reg cmds i ctx win).trace.length := by
  induction cmds with
  | nil => intro i ctx win; simp [runCmds]
  | cons cmd rest ih =>
    intro i ctx win
    simp only [runCmds]
    by_cases h : (!(executeCommand reg win cmd ctx i).1.success && !ctx.continueOnError) = true
    · rw [if_pos h]; simp [List.range']
    · rw [if_neg h]
      simp only [List.map_cons, List.length_cons, List.range']
      rw [ih]

theorem runCmds_static (reg : Registry) (cmds : List Command) :
    ∀ (i : Nat) (ctx : ExecutionContext) (win : Option Window),
    (∀ sr ∈ (runCmds reg cmds i ctx win).trace, transitionCond sr = false) →
    (runCmds reg cmds i ctx win).window = win ∧
      (runCmds reg cmds i ctx win).ctx.window = ctx.window := by
  induction cmds with
  | nil => intro i ctx win _; simp [runCmds]
  | cons cmd rest ih =>
    intro i ctx win hmem
    simp only [runCmds] at hmem ⊢
    by_cases h : (!(executeCommand reg win cmd ctx i).1.success && !ctx.continueOnError) = true
    · rw [if_pos h] at hmem ⊢
      simp only [List.mem_singleton] at hmem
      have hp := stepPost_of
        { index := i, cmd := cmd, ctxBefore := ctx, winBefore := win,
          result := (executeCommand reg win cmd ctx i).1,
          invoked := (executeCommand reg win cmd ctx i).2,
          releasedHere := (applyWindowReplacement cmd (executeCommand reg win cmd ctx i).1
            { ctx with results := ctx.results ++ [(executeCommand reg win cmd ctx i).1] } win).2.2,
          ctxAfter := (applyWindowReplacement cmd (executeCommand reg win cmd ctx i).1
            { ctx with results := ctx.results ++ [(executeCommand reg win cmd ctx i).1] } win).1,
          winAfter := (applyWindowReplacement cmd (executeCommand reg win cmd ctx i).1
            { ctx with results := ctx.results ++ [(executeCommand reg win cmd ctx i).1] } win).2.1 } rfl
      rw [StepPost, if_neg (by rw [hmem _ rfl]; simp)] at hp
      exact ⟨hp.1, hp.2.1⟩
    · rw [if_neg h] at hmem ⊢
      simp only [List.mem_cons] at hmem
      have hp := stepPost_of
        { index := i, cmd := cmd, ctxBefore := ctx, winBefore := win,
          result := (executeCommand reg win cmd ctx i).1,
          invoked := (executeCommand reg win cmd ctx i).2,
          releasedHere := (applyWindowReplacement cmd (executeCommand reg win cmd ctx i).1
            { ctx with results := ctx.results ++ [(executeCommand reg win cmd ctx i).1] } win).2.2,
          ctxAfter := (applyWindowReplacement cmd (executeCommand reg win cmd ctx i).1
            { ctx with results := ctx.results ++ [(executeCommand reg win cmd ctx i).1] } win).1,
          winAfter := (applyWindowReplacement cmd (executeCommand reg win cmd ctx i).1
            { ctx with results := ctx.results ++ [(executeCommand reg win cmd ctx i).1] } win).2.1 } rfl
      rw [StepPost, if_neg (by rw [hmem _ (Or.inl rfl)]; simp)] at hp
      have hrest := ih (i + 1) _ _ (fun sr hsr => hmem sr (Or.inr hsr))
      refine ⟨?_, ?_⟩
      · rw [hrest.1]; exact hp.1
      · rw [hrest.2]; exact hp.2.1

theorem executeCommand_unknown (reg : Registry) (w : Option Window) (cmd : Command)
    (ctx : ExecutionContext) (i : Nat) (hreg : reg cmd.command = none) :
    executeCommand reg w cmd ctx i =
      ({ command := cmd.command, commandIndex := i, success := false, duration := 0,
         error := some { type := "execution_error",
                         message := "Unknown command type: " ++ cmd.command,
                         url := windowUrlOr w ctx.baseUrl }, data := none }, false) := by
  simp only [executeCommand, hreg]

theorem executeCommand_threw (reg : Registry) (w : Option Window) (cmd : Command)
    (ctx : ExecutionContext) (i : Nat) (f : CommandExecutorFn) (m : String)
    (hreg : reg cmd.command = some f) (hf : f w cmd ctx i = .threw m) :
    executeCommand reg w cmd ctx i =
      ({ command := if cmd.command = "" then "unknown" else cmd.command,
         commandIndex := i, success := false, duration := 0,
         error := some { type := "execution_error",
                         message := if m = "" then "Unknown error" else m,
                         url := windowUrlOr w ctx.baseUrl }, data := none }, true) := by
  simp only [executeCommand, hreg, hf]

theorem executeCommand_index (reg : Registry) (w : Option Window) (cmd : Command)
    (ctx : ExecutionContext) (i : Nat) (hreg : IndexFaithful reg) :
    ((executeCommand reg w cmd ctx i).1).commandIndex = i := by
  cases hc : reg cmd.command with
  | none => simp only [executeCommand, hc]
  | some f =>
    cases hf : f w cmd ctx i with
    | ret r =>
      simp only [executeCommand, hc, hf]
      exact hreg _ f hc w cmd ctx i r hf
    | threw m => simp only [executeCommand, hc, hf]

/-! ## Claim theorems: the execution engine -/

/-- C1: with `continueOnError = false`, if the command at index `k` produces an
unsuccessful result and all commands before `k` succeed, the loop stops
immediately: the returned result sequence has exactly `k + 1` entries, no
command beyond index `k` is dispatched, and the returned `ExecutionResult`
still reports `totalCommands = N`. -/
theorem C1_stop_on_error (reg : Registry) (config : OperationConfig)
    (context : ExecutionContext) (tNow tEnd : Nat) (k : Nat) (r : CommandResult)
    (hcoe : context.continueOnError = false)
    (hres0 : context.results = [])
    (hk : (execute reg config context tNow tEnd).1.results.get? k = some r)
    (hfail : r.success = false)
    (hbefore : ∀ (j : Nat) (q : CommandResult), j < k →
      (execute reg config context tNow tEnd).1.results.get? j = some q → q.success = true) :
    (execute reg config context tNow tEnd).1.results.length = k + 1 ∧
    (execute reg config context tNow tEnd).2.trace.map (fun sr => sr.index) =
      List.range (k + 1) ∧
    (execute reg config context tNow tEnd).1.totalCommands = config.commands.length := by
  have hres : (execute reg config context tNow tEnd).1.results =
      (runCmds reg config.commands 0 context context.window).trace.map (fun sr => sr.result) := by
    show (runCmds reg config.commands 0 context context.window).ctx.results = _
    rw [runCmds_results, hres0, List.nil_append]
  rw [hres] at hk
  have hklt : k < (runCmds reg config.commands 0 context context.window).trace.length := by
    have h1 := List.get?_eq_some.mp hk
    simpa using h1.1
  have hlen : (runCmds reg config.commands 0 context context.window).trace.length = k + 1 := by
    rcases Nat.lt_or_ge (k + 1)
      (runCmds reg config.commands 0 context context.window).trace.length with hlt | hge
    · exfalso
      have hget : (runCmds reg config.commands 0 context context.window).trace.get? k =
          some ((runCmds reg config.commands 0 context context.window).trace.get ⟨k, hklt⟩) :=
        List.get?_eq_get hklt
      have hsucc := runCmds_stop_mid reg config.commands 0 context context.window hcoe k _
        hget hlt
      rw [List.get?_map, hget, Option.map_some'] at hk
      have hr := Option.some_inj.mp hk
      rw [← hr] at hfail
      rw [hsucc] at hfail
      exact Bool.noConfusion hfail
    · omega
  refine ⟨?_, ?_, rfl⟩
  · rw [hres, List.length_map, hlen]
  · have hidx := runCmds_indices reg config.commands 0 context context.window
    rw [hlen] at hidx
    rw [show (execute reg config context tNow tEnd).2 =
      runCmds reg config.commands 0 context context.window from rfl]
    rw [hidx, List.range_eq_range']

/-- C2: with `continueOnError = true` and an initially empty result list,
`execute` returns exactly `N` results whose `commandIndex` values are
`0 .. N-1` in order, regardless of per-command success (given registered
executors that honour the index contract of the registry). -/
theorem C2_ordering (reg : Registry) (config : OperationConfig)
    (context : ExecutionContext) (tNow tEnd : Nat)
    (hcoe : context.continueOnError = true)
    (hres0 : context.results = [])
    (hreg : IndexFaithful reg) :
    (execute reg config context tNow tEnd).1.results.length = config.commands.length ∧
    (execute reg config context tNow tEnd).1.results.map (fun r => r.commandIndex) =
      List.range config.commands.length := by
  have hres : (execute reg config context tNow tEnd).1.results =
      (runCmds reg config.commands 0 context context.window).trace.map (fun sr => sr.result) := by
    show (runCmds reg config.commands 0 context context.window).ctx.results = _
    rw [runCmds_results, hres0, List.nil_append]
  have hfull := runCmds_full reg config.commands 0 context context.window hcoe
  constructor
  · rw [hres, List.length_map, hfull]
  · rw [hres, List.map_map]
    have hmap : (runCmds reg config.commands 0 context context.window).trace.map
        ((fun r => r.commandIndex) ∘ (fun sr => sr.result)) =
        (runCmds reg config.commands 0 context context.window).trace.map (fun sr => sr.index) := by
      apply List.map_congr_left
      intro sr hsr
      obtain ⟨n, hn⟩ := List.mem_iff_get?.mp hsr
      obtain ⟨cmd, _, _, _, hpair, _, _, _⟩ :=
        runCmds_trace_spec reg config.commands 0 context context.window n sr hn
      have hresr : sr.result = (executeCommand reg sr.winBefore sr.cmd sr.ctxBefore sr.index).1 :=
        congrArg Prod.fst hpair
      show sr.result.commandIndex = sr.index
      rw [hresr]
      exact executeCommand_index reg sr.winBefore sr.cmd sr.ctxBefore sr.index hreg
    rw [hmap, runCmds_indices, hfull, List.range_eq_range']

/-- C3: a command whose name has no registered executor yields a synthesized
failed result of kind `execution_error` whose message names the unknown
command, with no executor invoked, and that result is appended to the result
stream at the command's position. -/
theorem C3_unknown_command (reg : Registry) (config : OperationConfig)
    (context : ExecutionContext) (tNow tEnd : Nat) (j : Nat) (cmd : Command) (sr : StepRecord)
    (hc : config.commands.get? j = some cmd)
    (hreg : reg cmd.command = none)
    (hj : (execute reg config context tNow tEnd).2.trace.get? j = some sr) :
    sr.invoked = false ∧
    sr.result.success = false ∧
    sr.result.error = some { type := "execution_error",
                             message := "Unknown command type: " ++ cmd.command,
                             url := windowUrlOr sr.winBefore sr.ctxBefore.baseUrl } ∧
    (execute reg config context tNow tEnd).1.results.get? (context.results.length + j) =
      some sr.result := by
  obtain ⟨cmd2, hc2, hidx, hcmd, hpair, hpost, hcoe2, hback⟩ :=
    runCmds_trace_spec reg config.commands 0 context context.window j sr hj
  have hceq : cmd = cmd2 := by rw [hc] at hc2; exact Option.some_inj.mp hc2
  subst hceq
  rw [hcmd, executeCommand_unknown reg sr.winBefore cmd sr.ctxBefore sr.index hreg] at hpair
  have hresr := congrArg Prod.fst hpair
  have hinv := congrArg Prod.snd hpair
  simp only at hresr hinv
  refine ⟨hinv, by rw [hresr], by rw [hresr], ?_⟩
  have hj2 : (runCmds reg config.commands 0 context context.window).trace.get? j = some sr := hj
  have hres : (execute reg config context tNow tEnd).1.results =
      context.results ++
        (runCmds reg config.commands 0 context context.window).trace.map (fun sr => sr.result) :=
    runCmds_results reg config.commands 0 context context.window
  rw [hres, List.get?_append_right (by omega)]
  simp only [Nat.add_sub_cancel_left]
  rw [List.get?_map, hj2, Option.map_some']

/-- C4: the returned `ExecutionResult` satisfies `success ↔ errorCount = 0`,
`errorCount` counts the unsuccessful entries and `successCount` the successful
entries of the result sequence, and the result carries the full ordered
`CommandResult` sequence accumulated on the context. -/
theorem C4_aggregate (reg : Registry) (config : OperationConfig)
    (context : ExecutionContext) (tNow tEnd : Nat) :
    ((execute reg config context tNow tEnd).1.success = true ↔
      (execute reg config context tNow tEnd).1.errorCount = 0) ∧
    (execute reg config context tNow tEnd).1.errorCount =
      (execute reg config context tNow tEnd).1.results.countP (fun r => !r.success) ∧
    (execute reg config context tNow tEnd).1.successCount =
      (execute reg config context tNow tEnd).1.results.countP (fun r => r.success) ∧
    (execute reg config context tNow tEnd).1.results =
      context.results ++
        (execute reg config context tNow tEnd).2.trace.map (fun sr => sr.result) := by
  refine ⟨?_, rfl, rfl, ?_⟩
  · constructor
    · intro h
      have h2 : ((execute reg config context tNow tEnd).1.errorCount == 0) = true := h
      exact beq_iff_eq.mp h2
    · intro h
      show ((execute reg config context tNow tEnd).1.errorCount == 0) = true
      rw [h]
      rfl
  · exact runCmds_results reg config.commands 0 context context.window

/-- C5: a failure thrown during a command's invocation never escapes
`execute`: it is converted into a failed `execution_error` result carrying the
failure's message (with the `Unknown error` fallback for an empty message) and
appended to the result stream at the command's position. -/
theorem C5_thrown_conversion (reg : Registry) (config : OperationConfig)
    (context : ExecutionContext) (tNow tEnd : Nat) (j : Nat) (cmd : Command)
    (f : CommandExecutorFn) (m : String) (sr : StepRecord)
    (hc : config.commands.get? j = some cmd)
    (hreg : reg cmd.command = some f)
    (hf : ∀ (w : Option Window) (c : ExecutionContext) (idx : Nat), f w cmd c idx = .threw m)
    (hj : (execute reg config context tNow tEnd).2.trace.get? j = some sr) :
    sr.result.success = false ∧
    sr.result.error = some { type := "execution_error",
                             message := if m = "" then "Unknown error" else m,
                             url := windowUrlOr sr.winBefore sr.ctxBefore.baseUrl } ∧
    (execute reg config context tNow tEnd).1.results.get? (context.results.length + j) =
      some sr.result := by
  obtain ⟨cmd2, hc2, hidx, hcmd, hpair, hpost, hcoe2, hback⟩ :=
    runCmds_trace_spec reg config.commands 0 context context.window j sr hj
  have hceq : cmd = cmd2 := by rw [hc] at hc2; exact Option.some_inj.mp hc2
  subst hceq
  rw [hcmd, executeCommand_threw reg sr.winBefore cmd sr.ctxBefore sr.index f m hreg
    (hf sr.winBefore sr.ctxBefore sr.index)] at hpair
  have hresr := congrArg Prod.fst hpair
  simp only at hresr
  refine ⟨by rw [hresr], by rw [hresr], ?_⟩
  have hj2 : (runCmds reg config.commands 0 context context.window).trace.get? j = some sr := hj
  have hres : (execute reg config context tNow tEnd).1.results =
      context.results ++
        (runCmds reg config.commands 0 context context.window).trace.map (fun sr => sr.result) :=
    runCmds_results reg config.commands 0 context context.window
  rw [hres, List.get?_append_right (by omega)]
  simp only [Nat.add_sub_cancel_left]
  rw [List.get?_map, hj2, Option.map_some']

/-- C6: the active window handle changes exactly on the window-replacement
transition — a successful `navigate`/`click`/`submit` on the happy-dom backend
whose result carries a replacement window — releasing the old handle
(best-effort) and preserving a previously-attached remapper when the new
window's `requestResult` lacks one; when no step satisfies the transition
guard, the window handle is static for the run's lifetime. -/
theorem C6_window_replacement (reg : Registry) (config : OperationConfig)
    (context : ExecutionContext) (tNow tEnd : Nat) :
    (∀ sr ∈ (execute reg config context tNow tEnd).2.trace, StepPost sr) ∧
    ((∀ sr ∈ (execute reg config context tNow tEnd).2.trace, transitionCond sr = false) →
      (execute reg config context tNow tEnd).2.window = context.window ∧
      (execute reg config context tNow tEnd).2.ctx.window = context.window) := by
  constructor
  · intro sr hsr
    obtain ⟨n, hn⟩ := List.mem_iff_get?.mp hsr
    obtain ⟨cmd, _, _, _, _, hpost, _, _⟩ :=
      runCmds_trace_spec reg config.commands 0 context context.window n sr hn
    exact hpost
  · intro hall
    exact runCmds_static reg config.commands 0 context context.window hall

/-- C10: pre-existing entries of `context.results` are retained with this
run's results appended after them, and the final counts and success flag are
computed over all entries, including the pre-existing ones. -/
theorem C10_preexisting_results (reg : Registry) (config : OperationConfig)
    (context : ExecutionContext) (tNow tEnd : Nat)
    (hne : context.results ≠ []) :
    (execute reg config context tNow tEnd).1.results =
      context.results ++
        (execute reg config context tNow tEnd).2.trace.map (fun sr => sr.result) ∧
    (execute reg config context tNow tEnd).1.successCount =
      context.results.countP (fun r => r.success) +
        ((execute reg config context tNow tEnd).2.trace.map
          (fun sr => sr.result)).countP (fun r => r.success) ∧
    (execute reg config context tNow tEnd).1.errorCount =
      context.results.countP (fun r => !r.success) +
        ((execute reg config context tNow tEnd).2.trace.map
          (fun sr => sr.result)).countP (fun r => !r.success) ∧
    ((execute reg config context tNow tEnd).1.success = true ↔
      context.results.countP (fun r => !r.success) +
        ((execute reg config context tNow tEnd).2.trace.map
          (fun sr => sr.result)).countP (fun r => !r.success) = 0) := by
  have hres : (execute reg config context tNow tEnd).1.results =
      context.results ++
        (runCmds reg config.commands 0 context context.window).trace.map (fun sr => sr.result) :=
    runCmds_results reg config.commands 0 context context.window
  refine ⟨hres, ?_, ?_, ?_⟩
  · show (runCmds reg config.commands 0 context context.window).ctx.results.countP _ = _
    rw [runCmds_results reg config.commands 0 context context.window, List.countP_append]
    rfl
  · show (runCmds reg config.commands 0 context context.window).ctx.results.countP _ = _
    rw [runCmds_results reg config.commands 0 context context.window, List.countP_append]
    rfl
  · constructor
    · intro h
      have hb2 : ((execute reg config context tNow tEnd).1.errorCount == 0) = true := h
      have h2 : (execute reg config context tNow tEnd).1.errorCount = 0 :=
        beq_iff_eq.mp hb2
      have h3 : (execute reg config context tNow tEnd).1.errorCount =
          context.results.countP (fun r => !r.success) +
            ((execute reg config context tNow tEnd).2.trace.map
              (fun sr => sr.result)).countP (fun r => !r.success) := by
        show (runCmds reg config.commands 0 context context.window).ctx.results.countP _ = _
        rw [runCmds_results reg config.commands 0 context context.window, List.countP_append]
        rfl
      rw [← h3]
      exact h2
    · intro h
      show ((execute reg config context tNow tEnd).1.errorCount == 0) = true
      have h3 : (execute reg config context tNow tEnd).1.errorCount =
          context.results.countP (fun r => !r.success) +
            ((execute reg config context tNow tEnd).2.trace.map
              (fun sr => sr.result)).countP (fun r => !r.success) := by
        show (runCmds reg config.commands 0 context context.window).ctx.results.countP _ = _
        rw [runCmds_results reg config.commands 0 context context.window, List.countP_append]
        rfl
      rw [h3, h]
      rfl

/-! ## Concrete fixtures for the witnesses -/

/-- A command executor that succeeds except at index 1 (honours the index
contract). -/
def stepExec : CommandExecutorFn := fun _ c _ i =>
  .ret { command := c.command, commandIndex := i, success := decide (i ≠ 1), duration := 3,
         error := none, data := none }

/-- A command executor that always throws. -/
def boomExec : CommandExecutorFn := fun _ _ _ _ => .threw "boom"

/-- The `requestResult` of the replacement window (no remapper attached). -/
def nextRR : RequestResult := { remapper := none, payload := 3 }

/-- The replacement window delivered by `navExec`. -/
def nextWindow : Window := { id := 7, url := "http://next", requestResult := some nextRR }

/-- A navigate-like executor returning a replacement window whose
`requestResult` carries no remapper. -/
def navExec : CommandExecutorFn := fun _ c _ i =>
  .ret { command := c.command, commandIndex := i, success := true, duration := 2, error := none,
         data := some { newWindow := some nextWindow } }

def regW : Registry := fun name =>
  if name = "step" then some stepExec
  else if name = "boom" then some boomExec
  else if name = "navigate" then some navExec
  else none

def ctxFresh : ExecutionContext :=
  { backend := "happy-dom", window := none, baseUrl := "", timeout := 5000,
    continueOnError := false, results := [], startTime := none, requestResult := none }

def ctxCoe : ExecutionContext := { ctxFresh with continueOnError := true }

/-- The initial window of the navigation witness run. -/
def startWindow : Window := { id := 1, url := "http://start", requestResult := none }

/-- The initial `requestResult` of the navigation witness run (carries a
remapper that must survive the window replacement). -/
def startRR : RequestResult := { remapper := some 5, payload := 9 }

def ctxNav : ExecutionContext :=
  { backend := "happy-dom",
    window := some startWindow,
    baseUrl := "http://start", timeout := 5000, continueOnError := false, results := [],
    startTime := none, requestResult := some startRR }

def cfgSteps : OperationConfig :=
  { name := some "steps", commands := [⟨"step", []⟩, ⟨"step", []⟩, ⟨"step", []⟩] }

def cfgUnknown : OperationConfig := { name := none, commands := [⟨"mystery", []⟩] }

def cfgBoom : OperationConfig := { name := none, commands := [⟨"boom", []⟩] }

def cfgNav : OperationConfig := { name := none, commands := [⟨"navigate", []⟩] }

theorem regW_indexFaithful : IndexFaithful regW := by
  intro name f hf w c ctx i r hr
  unfold regW at hf
  split at hf
  · obtain rfl := Option.some_inj.mp hf
    simp only [stepExec] at hr
    cases hr
    rfl
  · split at hf
    · obtain rfl := Option.some_inj.mp hf
      simp only [boomExec] at hr
      exact ExecOutcome.noConfusion hr
    · split at hf
      · obtain rfl := Option.some_inj.mp hf
        simp only [navExec] at hr
        cases hr
        rfl
      · exact Option.noConfusion hf

/-- The (single) step record of the unknown-command witness run. -/
def srUnknown : StepRecord :=
  ((execute regW cfgUnknown ctxFresh 0 9).2.trace).get ⟨0, by decide⟩

/-- The (single) step record of the throwing-executor witness run. -/
def srBoom : StepRecord :=
  ((execute regW cfgBoom ctxFresh 0 9).2.trace).get ⟨0, by decide⟩

/-- The (single) step record of the navigation witness run. -/
def srNav : StepRecord :=
  ((execute regW cfgNav ctxNav 0 9).2.trace).get ⟨0, by decide⟩

/-- A pre-existing result installed on the context before the run (C10). -/
def preResult : CommandResult :=
  { command := "earlier", commandIndex := 0, success := false, duration := 1,
    error := none, data := none }

def ctxPre : ExecutionContext :=
  { ctxFresh with results := [preResult], continueOnError := true }

/-! ## Witnesses -/

theorem C1_stop_on_error_witness :
    (execute regW cfgSteps ctxFresh 0 9).1.results.length = 2 ∧
    (execute regW cfgSteps ctxFresh 0 9).2.trace.map (fun sr => sr.index) = List.range 2 ∧
    (execute regW cfgSteps ctxFresh 0 9).1.totalCommands = 3 :=
  C1_stop_on_error regW cfgSteps ctxFresh 0 9 1
    { command := "step", commandIndex := 1, success := false, duration := 3,
      error := none, data := none }
    rfl rfl rfl rfl
    (by intro j q hj hq
        have hj0 : j = 0 := by omega
        subst hj0
        have h0 : (execute regW cfgSteps ctxFresh 0 9).1.results.get? 0 =
            some { command := "step", commandIndex := 0, success := true, duration := 3,
                   error := none, data := none } := rfl
        rw [h0] at hq
        obtain rfl := Option.some_inj.mp hq
        rfl)

theorem C2_ordering_witness :
    (execute regW cfgSteps ctxCoe 0 9).1.results.length = 3 ∧
    (execute regW cfgSteps ctxCoe 0 9).1.results.map (fun r => r.commandIndex) =
      List.range 3 :=
  C2_ordering regW cfgSteps ctxCoe 0 9 rfl rfl regW_indexFaithful

theorem C3_unknown_command_witness :
    srUnknown.invoked = false ∧
    srUnknown.result.success = false ∧
    srUnknown.result.error =
      some { type := "execution_error", message := "Unknown command type: mystery",
             url := windowUrlOr srUnknown.winBefore srUnknown.ctxBefore.baseUrl } ∧
    (execute regW cfgUnknown ctxFresh 0 9).1.results.get? (ctxFresh.results.length + 0) =
      some srUnknown.result :=
  C3_unknown_command regW cfgUnknown ctxFresh 0 9 0 ⟨"mystery", []⟩ srUnknown rfl rfl rfl

theorem C5_thrown_conversion_witness :
    srBoom.result.success = false ∧
    srBoom.result.error =
      some { type := "execution_error", message := "boom",
             url := windowUrlOr srBoom.winBefore srBoom.ctxBefore.baseUrl } ∧
    (execute regW cfgBoom ctxFresh 0 9).1.results.get? (ctxFresh.results.length + 0) =
      some srBoom.result :=
  C5_thrown_conversion regW cfgBoom ctxFresh 0 9 0 ⟨"boom", []⟩ boomExec "boom" srBoom
    rfl rfl (fun _ _ _ => rfl) rfl

theorem C6_window_replacement_witness : StepPost srNav :=
  (C6_window_replacement regW cfgNav ctxNav 0 9).1 srNav (by decide)

theorem C10_preexisting_results_witness :
    (execute regW cfgSteps ctxPre 0 9).1.results =
      ctxPre.results ++ (execute regW cfgSteps ctxPre 0 9).2.trace.map (fun sr => sr.result) ∧
    (execute regW cfgSteps ctxPre 0 9).1.successCount =
      ctxPre.results.countP (fun r => r.success) +
        ((execute regW cfgSteps ctxPre 0 9).2.trace.map
          (fun sr => sr.result)).countP (fun r => r.success) ∧
    (execute regW cfgSteps ctxPre 0 9).1.errorCount =
      ctxPre.results.countP (fun r => !r.success) +
        ((execute regW cfgSteps ctxPre 0 9).2.trace.map
          (fun sr => sr.result)).countP (fun r => !r.success) ∧
    ((execute regW cfgSteps ctxPre 0 9).1.success = true ↔
      ctxPre.results.countP (fun r => !r.success) +
        ((execute regW cfgSteps ctxPre 0 9).2.trace.map
          (fun sr => sr.result)).countP (fun r => !r.success) = 0) :=
  C10_preexisting_results regW cfgSteps ctxPre 0 9 (by decide)

/-! ## Lemmas about environment interpolation -/

/-- The referenced names of a token list. -/
def tokRefs (ts : List Tok) : List String :=
  ts.filterMap (fun t => match t with | .var n => some n | .lit _ => none)

theorem scanToks_ok (env : String → Option String) (ts : List Tok)
    (h : ∀ n ∈ tokRefs ts, (env n).isSome = true) :
    scanToks env ts = .ok (substToks (fun n => (env n).getD "") ts) := by
  induction ts with
  | nil => rfl
  | cons t ts ih =>
    cases t with
    | lit c =>
      have h2 : ∀ n ∈ tokRefs ts, (env n).isSome = true := by
        intro n hn
        exact h n (by simp only [tokRefs, List.filterMap_cons] at hn ⊢; exact hn)
      simp only [scanToks, substToks, ih h2]
    | var n =>
      have hn : (env n).isSome = true := by
        exact h n (by simp [tokRefs, List.filterMap_cons])
      obtain ⟨v, hv⟩ := Option.isSome_iff_exists.mp hn
      have h2 : ∀ m ∈ tokRefs ts, (env m).isSome = true := by
        intro m hm
        exact h m (by simp only [tokRefs, List.filterMap_cons] at hm ⊢; simp; right; simpa using hm)
      simp only [scanToks, substToks, hv, ih h2, hv]
      simp [hv]

theorem scanToks_err (env : String → Option String) (ts : List Tok)
    (h : ∃ n ∈ tokRefs ts, env n = none) :
    ∃ V, V ∈ tokRefs ts ∧ env V = none ∧
      scanToks env ts = .error ("Environment variable not found: " ++ V) := by
  induction ts with
  | nil => simp [tokRefs] at h
  | cons t ts ih =>
    cases t with
    | lit c =>
      have h2 : ∃ n ∈ tokRefs ts, env n = none := by
        simpa only [tokRefs, List.filterMap_cons] using h
      obtain ⟨V, hV1, hV2, hV3⟩ := ih h2
      refine ⟨V, by simpa only [tokRefs, List.filterMap_cons] using hV1, hV2, ?_⟩
      simp only [scanToks, hV3]
    | var n =>
      cases hv : env n with
      | none =>
        refine ⟨n, by simp [tokRefs, List.filterMap_cons], hv, ?_⟩
        simp only [scanToks, hv]
      | some v =>
        have h2 : ∃ m ∈ tokRefs ts, env m = none := by
          obtain ⟨m, hm1, hm2⟩ := h
          simp only [tokRefs, List.filterMap_cons] at hm1
          simp only [List.mem_cons] at hm1
          rcases hm1 with rfl | hm1
          · rw [hv] at hm2; exact Option.noConfusion hm2
          · exact ⟨m, by simpa [tokRefs] using hm1, hm2⟩
        obtain ⟨V, hV1, hV2, hV3⟩ := ih h2
        refine ⟨V, ?_, hV2, ?_⟩
        · simp only [tokRefs, List.filterMap_cons, List.mem_cons]
          right
          simpa [tokRefs] using hV1
        · simp only [scanToks, hv, hV3]

mutual
theorem jinterp_ok (env : String → Option String) (v : JValue)
    (h : ∀ n ∈ jrefs v, (env n).isSome = true) :
    interpolateCommand env v = .ok (jsubst (fun n => (env n).getD "") v) := by
  cases v with
  | str s =>
    have hs : scanToks env (decompose s.toList) =
        .ok (substToks (fun n => (env n).getD "") (decompose s.toList)) :=
      scanToks_ok env _ (by intro n hn; exact h n (by simpa [jrefs, refsOf, tokRefs] using hn))
    simp only [interpolateCommand, interpolateEnv, hs, jsubst]
  | arr xs =>
    have hl := jinterp_ok_list env xs (by intro n hn; exact h n (by simpa [jrefs] using hn))
    simp only [interpolateCommand, hl, jsubst]
  | obj fs =>
    have hl := jinterp_ok_fields env fs (by intro n hn; exact h n (by simpa [jrefs] using hn))
    simp only [interpolateCommand, hl, jsubst]
  | num n => rfl
  | bool b => rfl
  | null => rfl

theorem jinterp_ok_list (env : String → Option String) (xs : List JValue)
    (h : ∀ n ∈ jrefsList xs, (env n).isSome = true) :
    interpList env xs = .ok (jsubstList (fun n => (env n).getD "") xs) := by
  cases xs with
  | nil => rfl
  | cons x xs =>
    have h1 := jinterp_ok env x
      (by intro n hn; exact h n (by simp [jrefsList]; exact Or.inl hn))
    have h2 := jinterp_ok_list env xs
      (by intro n hn; exact h n (by simp [jrefsList]; exact Or.inr hn))
    simp only [interpList, h1, h2, jsubstList]

theorem jinterp_ok_fields (env : String → Option String) (fs : List (String × JValue))
    (h : ∀ n ∈ jrefsFields fs, (env n).isSome = true) :
    interpFields env fs = .ok (jsubstFields (fun n => (env n).getD "") fs) := by
  cases fs with
  | nil => rfl
  | cons kx fs =>
    obtain ⟨k, x⟩ := kx
    have h1 := jinterp_ok env x
      (by intro n hn; exact h n (by simp [jrefsFields]; exact Or.inl hn))
    have h2 := jinterp_ok_fields env fs
      (by intro n hn; exact h n (by simp [jrefsFields]; exact Or.inr hn))
    simp only [interpFields, h1, h2, jsubstFields]
end

mutual
theorem jinterp_err (env : String → Option String) (v : JValue)
    (h : ∃ n ∈ jrefs v, env n = none) :
    ∃ V, V ∈ jrefs v ∧ env V = none ∧
      interpolateCommand env v = .error ("Environment variable not found: " ++ V) := by
  cases v with
  | str s =>
    obtain ⟨V, hV1, hV2, hV3⟩ := scanToks_err env (decompose s.toList)
      (by obtain ⟨n, hn1, hn2⟩ := h; exact ⟨n, by simpa [jrefs, refsOf, tokRefs] using hn1, hn2⟩)
    refine ⟨V, by simpa [jrefs, refsOf, tokRefs] using hV1, hV2, ?_⟩
    simp only [interpolateCommand, interpolateEnv, hV3]
  | arr xs =>
    obtain ⟨V, hV1, hV2, hV3⟩ := jinterp_err_list env xs
      (by obtain ⟨n, hn1, hn2⟩ := h; exact ⟨n, by simpa [jrefs] using hn1, hn2⟩)
    refine ⟨V, by simpa [jrefs] using hV1, hV2, ?_⟩
    simp only [interpolateCommand, hV3]
  | obj fs =>
    obtain ⟨V, hV1, hV2, hV3⟩ := jinterp_err_fields env fs
      (by obtain ⟨n, hn1, hn2⟩ := h; exact ⟨n, by simpa [jrefs] using hn1, hn2⟩)
    refine ⟨V, by simpa [jrefs] using hV1, hV2, ?_⟩
    simp only [interpolateCommand, hV3]
  | num n => simp [jrefs] at h
  | bool b => simp [jrefs] at h
  | null => simp [jrefs] at h

theorem jinterp_err_list (env : String → Option String) (xs : List JValue)
    (h : ∃ n ∈ jrefsList xs, env n = none) :
    ∃ V, V ∈ jrefsList xs ∧ env V = none ∧
      interpList env xs = .error ("Environment variable not found: " ++ V) := by
  cases xs with
  | nil => simp [jrefsList] at h
  | cons x xs =>
    by_cases hx : ∃ n ∈ jrefs x, env n = none
    · obtain ⟨V, hV1, hV2, hV3⟩ := jinterp_err env x hx
      refine ⟨V, by simp [jrefsList]; exact Or.inl hV1, hV2, ?_⟩
      simp only [interpList, hV3]
    · have hok := jinterp_ok env x (by
        intro n hn
        cases he : env n with
        | none => exact absurd ⟨n, hn, he⟩ hx
        | some v => rfl)
      have h2 : ∃ n ∈ jrefsList xs, env n = none := by
        obtain ⟨n, hn1, hn2⟩ := h
        simp only [jrefsList, List.mem_append] at hn1
        rcases hn1 with hn1 | hn1
        · exact absurd ⟨n, hn1, hn2⟩ hx
        · exact ⟨n, hn1, hn2⟩
      obtain ⟨V, hV1, hV2, hV3⟩ := jinterp_err_list env xs h2
      refine ⟨V, by simp [jrefsList]; exact Or.inr hV1, hV2, ?_⟩
      simp only [interpList, hok, hV3]

theorem jinterp_err_fields (env : String → Option String) (fs : List (String × JValue))
    (h : ∃ n ∈ jrefsFields fs, env n = none) :
    ∃ V, V ∈ jrefsFields fs ∧ env V = none ∧
      interpFields env fs = .error ("Environment variable not found: " ++ V) := by
  cases fs with
  | nil => simp [jrefsFields] at h
  | cons kx fs =>
    obtain ⟨k, x⟩ := kx
    by_cases hx : ∃ n ∈ jrefs x, env n = none
    · obtain ⟨V, hV1, hV2, hV3⟩ := jinterp_err env x hx
      refine ⟨V, by simp [jrefsFields]; exact Or.inl hV1, hV2, ?_⟩
      simp only [interpFields, hV3]
    · have hok := jinterp_ok env x (by
        intro n hn
        cases he : env n with
        | none => exact absurd ⟨n, hn, he⟩ hx
        | some v => rfl)
      have h2 : ∃ n ∈ jrefsFields fs, env n = none := by
        obtain ⟨n, hn1, hn2⟩ := h
        simp only [jrefsFields, List.mem_append] at hn1
        rcases hn1 with hn1 | hn1
        · exact absurd ⟨n, hn1, hn2⟩ hx
        · exact ⟨n, hn1, hn2⟩
      obtain ⟨V, hV1, hV2, hV3⟩ := jinterp_err_fields env fs h2
      refine ⟨V, by simp [jrefsFields]; exact Or.inr hV1, hV2, ?_⟩
      simp only [interpFields, hok, hV3]
end

/-! ## Claim theorem: secret interpolation (C8) -/

/-- C8: interpolation is all-or-nothing.  If any referenced variable is unset,
the whole configuration fails with an error naming a missing referenced
variable and no document is returned; when every referenced variable is set,
every placeholder occurrence is replaced with the corresponding environment
value (the total substitution `jsubst`), and non-string, non-container values
pass through unchanged. -/
theorem C8_interpolation_all_or_nothing (env : String → Option String) (config : JValue) :
    ((∃ X ∈ jrefs config, env X = none) →
      ∃ X, X ∈ jrefs config ∧ env X = none ∧
        interpolateConfig env config = .error ("Environment variable not found: " ++ X)) ∧
    ((∀ X ∈ jrefs config, (env X).isSome = true) →
      interpolateConfig env config = .ok (jsubst (fun n => (env n).getD "") config)) ∧
    (∀ n : Int, interpolateConfig env (.num n) = .ok (.num n)) ∧
    (∀ b : Bool, interpolateConfig env (.bool b) = .ok (.bool b)) ∧
    interpolateConfig env .null = .ok .null := by
  refine ⟨?_, ?_, fun n => rfl, fun b => rfl, rfl⟩
  · intro h
    exact jinterp_err env config h
  · intro h
    exact jinterp_ok env config h

/-- Environment of the interpolation witness: only `API_KEY` is set. -/
def envW : String → Option String := fun v => if v = "API_KEY" then some "k123" else none

/-- A document referencing the unset variable `MISSING_VAR`. -/
def cfgMissing : JValue :=
  JValue.obj [("version", JValue.str "1.0"),
              ("token", JValue.str "$\x7bgetenv:MISSING_VAR\x7d")]

/-- A document whose only reference, `API_KEY`, is set. -/
def cfgPresent : JValue :=
  JValue.obj [("version", JValue.str "1.0"),
              ("token", JValue.str "key=$\x7bgetenv:API_KEY\x7d")]

theorem C8_interpolation_witness :
    (∃ X, X ∈ jrefs cfgMissing ∧ envW X = none ∧
      interpolateConfig envW cfgMissing = .error ("Environment variable not found: " ++ X)) ∧
    interpolateConfig envW cfgPresent =
      .ok (jsubst (fun n => (envW n).getD "") cfgPresent) :=
  ⟨(C8_interpolation_all_or_nothing envW cfgMissing).1
      ⟨"MISSING_VAR",
        by simp only [cfgMissing, jrefs, jrefsFields, jrefsList, refsOf]; decide,
        by decide⟩,
   (C8_interpolation_all_or_nothing envW cfgPresent).2.1
      (by simp only [cfgPresent, jrefs, jrefsFields, jrefsList, refsOf]; decide)⟩

/-! ## Lemmas about the schema -/

theorem str_ne_empty_length (t : String) (h : t ≠ "") : 1 ≤ t.length := by
  cases t with
  | mk data =>
    cases data with
    | nil => exact absurd rfl h
    | cons a l => simp [String.length]

theorem lookupField_cons (k1 : String) (v1 : JValue) (rest : List (String × JValue))
    (k : String) :
    lookupField ((k1, v1) :: rest) k = if (k1 == k) = true then some v1 else lookupField rest k := by
  by_cases h : (k1 == k) = true
  · unfold lookupField
    rw [List.find?_cons_of_pos _ (by simpa using h)]
    simp [h]
  · unfold lookupField
    rw [List.find?_cons_of_neg _ (by simpa using h)]
    simp [h]

theorem commandParse_self (gs : List (String × JValue)) (s : String)
    (hcmd : lookupField gs "command" = some (.str s)) (hs : s ≠ "")
    (hdesc : ∀ d, lookupField gs "description" = some d → ∃ ds, d = JValue.str ds) :
    commandParse (.obj gs) = some (.obj gs) := by
  simp only [commandParse, hcmd]
  rw [if_pos (str_ne_empty_length s hs)]
  cases hd : lookupField gs "description" with
  | none => rfl
  | some d =>
    obtain ⟨ds, rfl⟩ := hdesc d hd
    rfl

theorem mapOpt_self (cs : List JValue) (h : ∀ c ∈ cs, commandParse c = some c) :
    mapOpt commandParse cs = some cs := by
  induction cs with
  | nil => rfl
  | cons c cs ih =>
    simp only [mapOpt, h c (by simp), ih (fun x hx => h x (by simp [hx]))]

theorem lookupField_nil (k : String) : lookupField [] k = none := rfl

theorem ocp_assemble (urlOk : String → Bool) (fs : List (String × JValue)) (ver : String)
    (cs : List JValue) (nameF descF setF : List (String × JValue))
    (hver : lookupField fs "version" = some (.str ver)) (hver1 : 1 ≤ ver.length)
    (h1 : optFieldParse strParse fs "name" = some nameF)
    (h2 : optFieldParse strParse fs "description" = some descF)
    (h3 : optFieldParse (settingsParse urlOk) fs "settings" = some setF)
    (hcmds : lookupField fs "commands" = some (.arr cs))
    (hlencs : 1 ≤ cs.length)
    (hmap : mapOpt commandParse cs = some cs) :
    operationConfigParse urlOk (.obj fs) =
      some (.obj ([("version", JValue.str ver)] ++ nameF ++ descF ++ setF ++
                  [("commands", JValue.arr cs)])) := by
  simp only [operationConfigParse, hver]
  rw [if_pos hver1]
  simp only [h1, h2, h3, hcmds]
  rw [if_pos hlencs]
  simp only [hmap]

theorem lookupOut (urlOk : String → Bool) (nameF descF setF : List (String × JValue))
    (ver : String) (cs : List JValue)
    (hs1 : nameF = [] ∨ ∃ t, nameF = [("name", JValue.str t)])
    (hs2 : descF = [] ∨ ∃ t, descF = [("description", JValue.str t)])
    (hs3 : setF = [] ∨ ∃ sv, setF = [("settings", sv)] ∧ settingsParse urlOk sv = some sv) :
    lookupField ([("version", JValue.str ver)] ++ nameF ++ descF ++ setF ++
        [("commands", JValue.arr cs)]) "version" = some (.str ver) ∧
    optFieldParse strParse ([("version", JValue.str ver)] ++ nameF ++ descF ++ setF ++
        [("commands", JValue.arr cs)]) "name" = some nameF ∧
    optFieldParse strParse ([("version", JValue.str ver)] ++ nameF ++ descF ++ setF ++
        [("commands", JValue.arr cs)]) "description" = some descF ∧
    optFieldParse (settingsParse urlOk) ([("version", JValue.str ver)] ++ nameF ++ descF ++
        setF ++ [("commands", JValue.arr cs)]) "settings" = some setF ∧
    lookupField ([("version", JValue.str ver)] ++ nameF ++ descF ++ setF ++
        [("commands", JValue.arr cs)]) "commands" = some (.arr cs) := by
  rcases hs1 with rfl | ⟨t1, rfl⟩ <;> rcases hs2 with rfl | ⟨t2, rfl⟩ <;>
    rcases hs3 with rfl | ⟨sv, rfl, hsv⟩ <;>
    refine ⟨?_, ?_, ?_, ?_, ?_⟩ <;>
    simp_all [lookupField_cons, lookupField_nil, optFieldParse, strParse]

/-! ## Claim theorem: open structural schema validation (C7) -/

/-- C7: validation of the generic schema is open and structural: any candidate
object with a non-empty `version` string and a non-empty `commands` array of
records each carrying a non-empty `command` string validates — for any command
name, with unknown extra fields on commands preserved verbatim — and
re-validating the validated output yields the identical value.  (The declared
optional fields — `name`, `description`, command `description`s, `settings` —
must be well-typed when present, as the schema checks them.) -/
theorem C7_schema_open_validation (urlOk : String → Bool) (fs : List (String × JValue))
    (ver : String) (cs : List JValue)
    (hver : lookupField fs "version" = some (.str ver))
    (hver1 : ver ≠ "")
    (hname : ∀ v, lookupField fs "name" = some v → ∃ t, v = JValue.str t)
    (hdesc : ∀ v, lookupField fs "description" = some v → ∃ t, v = JValue.str t)
    (hset : ∀ v, lookupField fs "settings" = some v → settingsParse urlOk v = some v)
    (hcmds : lookupField fs "commands" = some (.arr cs))
    (hcs1 : cs ≠ [])
    (hcs : ∀ c ∈ cs, ∃ gs t, c = JValue.obj gs ∧ lookupField gs "command" = some (.str t) ∧
      t ≠ "" ∧ ∀ d, lookupField gs "description" = some d → ∃ ds, d = JValue.str ds) :
    ∃ out, operationConfigParse urlOk (.obj fs) = some (.obj out) ∧
      lookupField out "commands" = some (.arr cs) ∧
      operationConfigParse urlOk (.obj out) = some (.obj out) := by
  have hlenv : 1 ≤ ver.length := str_ne_empty_length ver hver1
  have hcp : ∀ c ∈ cs, commandParse c = some c := by
    intro c hc
    obtain ⟨gs, t, rfl, h1, h2, h3⟩ := hcs c hc
    exact commandParse_self gs t h1 h2 h3
  have hmap : mapOpt commandParse cs = some cs := mapOpt_self cs hcp
  have hlencs : 1 ≤ cs.length := by
    cases cs with
    | nil => exact absurd rfl hcs1
    | cons c cs => simp
  have hOF1 : ∃ nameF, optFieldParse strParse fs "name" = some nameF ∧
      (nameF = [] ∨ ∃ t, nameF = [("name", JValue.str t)]) := by
    cases hn : lookupField fs "name" with
    | none => exact ⟨[], by simp [optFieldParse, hn], Or.inl rfl⟩
    | some nv =>
      obtain ⟨t, rfl⟩ := hname nv hn
      exact ⟨[("name", JValue.str t)], by simp [optFieldParse, hn, strParse], Or.inr ⟨t, rfl⟩⟩
  have hOF2 : ∃ descF, optFieldParse strParse fs "description" = some descF ∧
      (descF = [] ∨ ∃ t, descF = [("description", JValue.str t)]) := by
    cases hn : lookupField fs "description" with
    | none => exact ⟨[], by simp [optFieldParse, hn], Or.inl rfl⟩
    | some nv =>
      obtain ⟨t, rfl⟩ := hdesc nv hn
      exact ⟨[("description", JValue.str t)], by simp [optFieldParse, hn, strParse],
        Or.inr ⟨t, rfl⟩⟩
  have hOF3 : ∃ setF, optFieldParse (settingsParse urlOk) fs "settings" = some setF ∧
      (setF = [] ∨ ∃ sv, setF = [("settings", sv)] ∧ settingsParse urlOk sv = some sv) := by
    cases hn : lookupField fs "settings" with
    | none => exact ⟨[], by simp [optFieldParse, hn], Or.inl rfl⟩
    | some sv =>
      have hsv := hset sv hn
      exact ⟨[("settings", sv)], by simp [optFieldParse, hn, hsv], Or.inr ⟨sv, rfl, hsv⟩⟩
  obtain ⟨nameF, h1, hs1⟩ := hOF1
  obtain ⟨descF, h2, hs2⟩ := hOF2
  obtain ⟨setF, h3, hs3⟩ := hOF3
  obtain ⟨A, B, C, D, E⟩ := lookupOut urlOk nameF descF setF ver cs hs1 hs2 hs3
  refine ⟨[("version", JValue.str ver)] ++ nameF ++ descF ++ setF ++
    [("commands", JValue.arr cs)], ?_, E, ?_⟩
  · exact ocp_assemble urlOk fs ver cs nameF descF setF hver hlenv h1 h2 h3 hcmds hlencs hmap
  · exact ocp_assemble urlOk _ ver cs nameF descF setF A hlenv B C D E hlencs hmap

/-- Fields of the custom command used by the C7 witness: an unregistered
command name plus arbitrary extra fields. -/
def cmdC7fields : List (String × JValue) :=
  [("command", JValue.str "custom_command"), ("selector", JValue.str "#test"),
   ("customField", JValue.str "some-value")]

def cmdsC7 : List JValue := [JValue.obj cmdC7fields]

/-- Candidate document of the C7 witness (carries an unknown top-level
field). -/
def cfgC7 : List (String × JValue) :=
  [("version", JValue.str "1.0"), ("extraTop", JValue.num 42),
   ("commands", JValue.arr cmdsC7)]

theorem C7_schema_open_validation_witness :
    ∃ out, operationConfigParse (fun _ => true) (.obj cfgC7) = some (.obj out) ∧
      lookupField out "commands" = some (.arr cmdsC7) ∧
      operationConfigParse (fun _ => true) (.obj out) = some (.obj out) :=
  C7_schema_open_validation (fun _ => true) cfgC7 "1.0" cmdsC7 rfl (by decide)
    (by intro v hv
        rw [show lookupField cfgC7 "name" = none from rfl] at hv
        exact Option.noConfusion hv)
    (by intro v hv
        rw [show lookupField cfgC7 "description" = none from rfl] at hv
        exact Option.noConfusion hv)
    (by intro v hv
        rw [show lookupField cfgC7 "settings" = none from rfl] at hv
        exact Option.noConfusion hv)
    rfl (by simp [cmdsC7])
    (by intro c hc
        simp only [cmdsC7, List.mem_singleton] at hc
        subst hc
        refine ⟨cmdC7fields, "custom_command", rfl, rfl, by decide, ?_⟩
        intro d hd
        rw [show lookupField cmdC7fields "description" = none from rfl] at hd
        exact Option.noConfusion hd)

/-! ## Lemmas about the loader error messages (C9) -/

theorem toList_append (a b : String) : (a ++ b).toList = a.toList ++ b.toList :=
  String.data_append a b

/-- A common prefix of `c ++ m1` and `c ++ m2`, where `m1` and `m2` start with
different elements, is a prefix of `c`. -/
theorem prefix_of_prefix_append_ne {α : Type} (c : List α) :
    ∀ (m1 m2 l : List α), l <+: c ++ m1 → l <+: c ++ m2 →
      m1.head? ≠ m2.head? → l <+: c := by
  induction c with
  | nil =>
    intro m1 m2 l h1 h2 hne
    simp only [List.nil_append] at h1 h2
    cases l with
    | nil => exact List.nil_prefix
    | cons a l =>
      exfalso
      have e1 : m1.head? = some a := by
        obtain ⟨t, ht⟩ := h1
        rw [← ht]
        rfl
      have e2 : m2.head? = some a := by
        obtain ⟨t, ht⟩ := h2
        rw [← ht]
        rfl
      exact hne (e1.trans e2.symm)
  | cons x c ih =>
    intro m1 m2 l h1 h2 hne
    cases l with
    | nil => exact List.nil_prefix
    | cons a l =>
      rw [List.cons_append] at h1 h2
      obtain ⟨rfl, h1b⟩ := List.cons_prefix_cons.mp h1
      obtain ⟨_, h2b⟩ := List.cons_prefix_cons.mp h2
      exact List.cons_prefix_cons.mpr ⟨rfl, ih m1 m2 l h1b h2b hne⟩

/-- The empty environment (no variable set). -/
def envNone : String → Option String := fun _ => none

/-- A parsed document whose only string references the unset `SECRET_TOKEN`. -/
def cfgTok : JValue := JValue.obj [("version", JValue.str "$\x7bgetenv:SECRET_TOKEN\x7d")]

/-- A parsed document with no placeholder and no `commands` field (fails
validation). -/
def cfgVer : JValue := JValue.obj [("version", JValue.str "1.0")]

theorem interp_cfgTok :
    interpolateCommand envNone cfgTok =
      .error "Environment variable not found: SECRET_TOKEN" := by
  simp only [cfgTok, interpolateCommand, interpFields]
  rfl

theorem interp_cfgVer : interpolateCommand envNone cfgVer = .ok cfgVer := by
  simp only [cfgVer, interpolateCommand, interpFields]
  rfl

/-! ## Claim theorems: loader error prefixes (C9) -/

set_option maxRecDepth 8000 in
/-- C9 counterexample: the loader does not give every failure kind its own
distinguishing prefix.  Two realistic parse failures and one interpolation
failure are exhibited; every prefix shared by the two parse-failure messages
is also a prefix of the interpolation-failure message, so no prefix can both
cover parse errors and exclude interpolation errors. -/
theorem C9_counterexample :
    parseYamlModel (fun _ => true) envNone "detail"
        (.fail false "end of the stream or a document separator is expected") =
      .error "Failed to parse configuration: end of the stream or a document separator is expected" ∧
    parseYamlModel (fun _ => true) envNone "detail"
        (.fail false "bad indentation of a mapping entry") =
      .error "Failed to parse configuration: bad indentation of a mapping entry" ∧
    parseYamlModel (fun _ => true) envNone "detail" (.ok cfgTok) =
      .error "Failed to parse configuration: Failed to interpolate environment variables: Environment variable not found: SECRET_TOKEN" ∧
    ¬ ∃ pp : String,
        pp.toList <+:
          ("Failed to parse configuration: end of the stream or a document separator is expected").toList ∧
        pp.toList <+:
          ("Failed to parse configuration: bad indentation of a mapping entry").toList ∧
        ¬ pp.toList <+:
          ("Failed to parse configuration: Failed to interpolate environment variables: Environment variable not found: SECRET_TOKEN").toList := by
  refine ⟨rfl, rfl, ?_, ?_⟩
  · simp only [parseYamlModel, interpolateConfig, interp_cfgTok]
    rfl
  · rintro ⟨pp, h1, h2, h3⟩
    apply h3
    have e1 : ("Failed to parse configuration: end of the stream or a document separator is expected").toList =
        ("Failed to parse configuration: ").toList ++
          ("end of the stream or a document separator is expected").toList := rfl
    have e2 : ("Failed to parse configuration: bad indentation of a mapping entry").toList =
        ("Failed to parse configuration: ").toList ++
          ("bad indentation of a mapping entry").toList := rfl
    have e3 : ("Failed to parse configuration: Failed to interpolate environment variables: Environment variable not found: SECRET_TOKEN").toList =
        ("Failed to parse configuration: ").toList ++
          ("Failed to interpolate environment variables: Environment variable not found: SECRET_TOKEN").toList := rfl
    rw [e1] at h1
    rw [e2] at h2
    rw [e3]
    have hc : pp.toList <+: ("Failed to parse configuration: ").toList := by
      exact prefix_of_prefix_append_ne (("Failed to parse configuration: ").toList)
        (("end of the stream or a document separator is expected").toList)
        (("bad indentation of a mapping entry").toList) pp.toList h1 h2 (by decide)
    exact hc.trans (List.prefix_append _ _)

set_option maxRecDepth 8000 in
/-- C9 amended: the loader's failure kinds are prefixed, but not all four are
mutually distinguishable by prefix: file-not-found messages start with
`Configuration file not found: `, validation failures with
`Configuration validation failed:`, and both parse failures and interpolation
failures with `Failed to parse configuration: ` — an interpolation failure is
recognisable only by the longer marker
`Failed to interpolate environment variables: ` after that shared prefix. -/
theorem C9_amended_prefixes (urlOk : String → Bool) (env : String → Option String)
    (detail path msg : String) (v : JValue) :
    (loadFromFileModel urlOk env detail false path (.fail false msg) =
      .error ("Configuration file not found: " ++ path)) ∧
    (∀ interp, isObjectLike v = true → interpolateConfig env v = .ok interp →
      operationConfigParse urlOk interp = none →
      parseYamlModel urlOk env detail (.ok v) =
        .error ("Configuration validation failed:\n" ++ detail)) ∧
    (∀ m, isObjectLike v = true → interpolateConfig env v = .error m →
      jsIncludes ("Failed to interpolate environment variables: " ++ m) "Configuration" = false →
      parseYamlModel urlOk env detail (.ok v) =
        .error ("Failed to parse configuration: " ++
          ("Failed to interpolate environment variables: " ++ m))) ∧
    (jsIncludes msg "Configuration" = false →
      parseYamlModel urlOk env detail (.fail false msg) =
        .error ("Failed to parse configuration: " ++ msg)) ∧
    (∀ m : String,
      ("Failed to parse configuration: ").toList <+:
        ("Failed to parse configuration: " ++
          ("Failed to interpolate environment variables: " ++ m)).toList) := by
  refine ⟨rfl, ?_, ?_, ?_, ?_⟩
  · intro interp hobj hok hparse
    have hinc : jsIncludes ("Configuration validation failed:\n" ++ detail)
        "Configuration" = true := by
      unfold jsIncludes
      rw [decide_eq_true_iff]
      exact ⟨[], (" validation failed:\n" ++ detail).toList, by
        rw [List.nil_append, toList_append, toList_append, ← List.append_assoc]
        rfl⟩
    simp only [parseYamlModel, hobj, if_true, hok, hparse, outerWrap,
      hinc, if_false, Bool.false_eq_true, ite_false, ite_true]
  · intro m hobj herr hinc
    simp only [parseYamlModel, hobj, if_true, herr, outerWrap, hinc,
      if_false, Bool.false_eq_true, ite_false, ite_true]
  · intro hinc
    simp only [parseYamlModel, outerWrap, hinc, if_false, Bool.false_eq_true, ite_false,
      ite_true]
  · intro m
    rw [toList_append]
    exact List.prefix_append _ _

set_option maxRecDepth 8000 in
theorem C9_amended_prefixes_witness :
    (loadFromFileModel (fun _ => true) envNone "detail" false "/ops/config.yaml"
        (.fail false "x") = .error "Configuration file not found: /ops/config.yaml") ∧
    (parseYamlModel (fun _ => true) envNone "detail" (.ok cfgVer) =
      .error ("Configuration validation failed:\n" ++ "detail")) ∧
    (parseYamlModel (fun _ => true) envNone "detail" (.ok cfgTok) =
      .error ("Failed to parse configuration: " ++
        ("Failed to interpolate environment variables: " ++
          "Environment variable not found: SECRET_TOKEN"))) ∧
    (parseYamlModel (fun _ => true) envNone "detail"
        (.fail false "bad indentation of a mapping entry") =
      .error ("Failed to parse configuration: " ++ "bad indentation of a mapping entry")) :=
  ⟨(C9_amended_prefixes (fun _ => true) envNone "detail" "/ops/config.yaml" "x" cfgVer).1,
   (C9_amended_prefixes (fun _ => true) envNone "detail" "p" "x" cfgVer).2.1 cfgVer rfl
      interp_cfgVer rfl,
   (C9_amended_prefixes (fun _ => true) envNone "detail" "p" "x" cfgTok).2.2.1
      "Environment variable not found: SECRET_TOKEN" rfl interp_cfgTok rfl,
   (C9_amended_prefixes (fun _ => true) envNone "detail" "p"
      "bad indentation of a mapping entry" cfgVer).2.2.2.1 rfl⟩

end E2E
